import Mathlib

/-!
Verification development for the codecrafters shell (Rust).

Shallow embedding of the repository's modules:
 * `src/lexer.rs`   — token kinds, `is_string_char`, the token scanner;
 * `src/parser.rs`  — `Parser` (quote handling, escapes, redirects, pipes),
   `Command`, `Redirect`, `OutputStream`, `get_output`, `get_error_output`;
 * `src/bin_path.rs` — `BinPath::load_path`, `BinPath::lookup`, `Bins` enumeration;
 * `src/completion.rs` — the `complete` candidate collection;
 * `src/pipeline.rs` — `Pipeline::run` thread spawn/join trace, the `cd` and
   `history` builtins, `last_n`.

Rust panics (`unwrap`, `panic!`, `unimplemented!`) are modelled as `none`
(`Option`), recoverable `io::Result`/`anyhow::Result` errors as `Except Unit`.
-/

/-- Token kinds of `lexer.rs::TokenKind` together with the two extra variants
(`DoubleQuote`, `EscapeSequence`) that `parser.rs` matches on. -/
inductive TokenKind where
  | singleQuote
  | doubleQuote
  | string
  | escapeSequence
  | whitespace
  | eof
deriving DecidableEq, Repr

/-- Embeds `lexer.rs::Token`: a kind plus the literal lexeme scanned. -/
structure Token where
  kind : TokenKind
  lexeme : String
deriving DecidableEq, Repr

/-- Embeds `parser.rs::RedirectType`. -/
inductive RedirectType where
  | overwrite
  | append
deriving DecidableEq, Repr

/-- Embeds `parser.rs::OutputStream`, parametrised by the command type so that the
nested `Pipe(Command)` variant can be tied below. -/
inductive OutputStreamG (α : Type) where
  | stdout
  | stderr
  | file (path : String)
  | pipe (cmd : α)

/-- Embeds `parser.rs::Redirect` (field `from` is a Lean keyword, rendered `src`;
`redirect_type` is rendered `rtype`; `to` is rendered `dst`). -/
structure RedirectG (α : Type) where
  src : OutputStreamG α
  rtype : RedirectType
  dst : OutputStreamG α

/-- Embeds `parser.rs::Command`: args plus the ordered redirect list. -/
inductive Command where
  | mk (args : List String) (redirects : List (RedirectG Command)) : Command

abbrev OutputStream := OutputStreamG Command

abbrev Redirect := RedirectG Command

def Command.args : Command → List String
  | .mk a _ => a

def Command.redirects : Command → List Redirect
  | .mk _ r => r

/-- Embeds `Redirect::new_pipe`. -/
def Redirect.new_pipe (c : Command) : Redirect :=
  ⟨OutputStreamG.stdout, RedirectType.overwrite, OutputStreamG.pipe c⟩

/-- Test `r.from == OutputStream::Stdout` (derived `PartialEq`; `Stdout` is a
fieldless variant, so the comparison is a variant check). -/
def is_stdout_src (r : Redirect) : Bool :=
  match r.src with
  | .stdout => true
  | _ => false

/-- Test `r.from == OutputStream::Stderr`. -/
def is_stderr_src (r : Redirect) : Bool :=
  match r.src with
  | .stderr => true
  | _ => false

/-- Where a resolved output stream ends up: the parent's stdout/stderr or an
opened file (`fs::File::create` for Overwrite, append+create for Append). -/
inductive Sink where
  | standardOut
  | standardErr
  | fileSink (path : String) (mode : RedirectType)
deriving DecidableEq, Repr

/-- Embeds `Redirect::open_output`: opens `to` when it is a `File`, panics
(`unimplemented!`) on any other target. -/
def open_output (r : Redirect) : Option Sink :=
  match r.dst with
  | .file p => some (Sink.fileSink p r.rtype)
  | _ => none

/-- Embeds `Command::get_output`: the first `Stdout`-sourced redirect decides the
sink (`io::stdout` if none is present). -/
def Command.get_output (c : Command) : Option Sink :=
  match c.redirects.find? is_stdout_src with
  | none => some Sink.standardOut
  | some r => open_output r

/-- Embeds `Command::get_error_output`: the first `Stderr`-sourced redirect decides
the sink (`io::stderr` if none is present). -/
def Command.get_error_output (c : Command) : Option Sink :=
  match c.redirects.find? is_stderr_src with
  | none => some Sink.standardErr
  | some r => open_output r

/-- The files `get_output` actually opens while resolving the stdout sink. -/
def Command.stdout_files_opened (c : Command) : List String :=
  match c.get_output with
  | some (Sink.fileSink p _) => [p]
  | _ => []

/-- The files `get_error_output` actually opens while resolving stderr. -/
def Command.stderr_files_opened (c : Command) : List String :=
  match c.get_error_output with
  | some (Sink.fileSink p _) => [p]
  | _ => []

/-!
The `Parser` of `parser.rs` is a token-at-a-time loop (`parse` calls
`process_next_lexeme` until EOF).  Two handlers temporarily change where
results go by running the *same* loop over the rest of the token stream:

 * `handle_pipe` swaps `args`/`redirects` out, keeps processing to the end of
   the input, and on return wraps the accumulated state as the downstream
   `Command` of a pipe redirect;
 * `handle_redirect` calls `next_string`, which keeps processing tokens until
   a handler flushes a string; that string becomes the redirect target instead
   of a member of `args`.

We embed this call structure with an explicit stack of `Frame`s: a `pipe`
frame holds the saved `args`/`redirects` of `handle_pipe`; a `redirect` frame
marks a pending `next_string` whose next flushed string completes the
redirect.  Each token is consumed exactly once, so the machine is structurally
recursive on the token list; `finalize` unwinds the stack exactly as the Rust
call stack unwinds at end of input (a still-open `redirect` frame is the
`panic!("unexpected EOF")` of `next_string`).
-/

/-- One suspended Rust stack frame of the parser (see the note above). -/
inductive Frame where
  | pipe (savedArgs : List String) (savedRedirects : List Redirect)
  | redirect (src : OutputStream) (rtype : RedirectType)

/-- The mutable fields of `parser.rs::Parser`, plus the frame stack. -/
structure PState where
  buf : String
  quotes : List TokenKind
  args : List String
  redirects : List Redirect
  frames : List Frame

def initState : PState := ⟨"", [], [], [], []⟩

/-- Routing of a flushed argument string: inside `next_string` (top frame is a
`redirect`) it becomes the redirect's `File` target and the redirect is pushed
onto `redirects`; otherwise `process_next_lexeme` pushes it onto `args`. -/
def flush_route (s : String) (st : PState) : PState :=
  match st.frames with
  | Frame.redirect src rt :: fs =>
      { st with redirects := st.redirects ++ [⟨src, rt, OutputStreamG.file s⟩],
                frames := fs }
  | _ => { st with args := st.args ++ [s] }

/-- Embeds `Parser::flush_buf` followed by the caller's use of its result: an empty
buffer flushes to nothing, a non-empty buffer is taken and routed. -/
def flush_buf (st : PState) : PState :=
  if st.buf = "" then st else flush_route st.buf { st with buf := "" }

/-- Embeds `Parser::handle_single_quote`.  Rust pushes/pops at the end of the
`quotes` vector; the model keeps the top of the stack at the list head. -/
def handle_single_quote (st : PState) : PState :=
  match st.quotes with
  | TokenKind.singleQuote :: rest => { st with quotes := rest }
  | [] => { st with quotes := [TokenKind.singleQuote] }
  | _ => { st with buf := st.buf.push '\'' }

/-- Embeds `Parser::handle_double_quote`; the final branch is the
`unimplemented!` panic. -/
def handle_double_quote (st : PState) : Option PState :=
  match st.quotes with
  | [] => some { st with quotes := [TokenKind.doubleQuote] }
  | TokenKind.doubleQuote :: rest => some { st with quotes := rest }
  | TokenKind.singleQuote :: _ => some { st with buf := st.buf.push '"' }
  | _ => none

/-- Constant `DOUBLE_QUOTE_ESCAPABLE` of `parser.rs` (the fourth entry is the
backquote character, written by code point). -/
def DOUBLE_QUOTE_ESCAPABLE : List Char := ['"', '\\', '$', Char.ofNat 96, '\n']

/-- Embeds `Parser::handle_escape_sequence`: reads `lexeme.chars().nth(1).unwrap()`
(panic if the lexeme is shorter than two characters) and appends either the
escaped character or a literal backslash-then-character, depending on the
open quote; the final branch is the `unimplemented!` panic. -/
def handle_escape_sequence (lexeme : String) (st : PState) : Option PState :=
  match lexeme.data.get? 1 with
  | none => none
  | some c =>
    match st.quotes with
    | [] => some { st with buf := st.buf.push c }
    | TokenKind.doubleQuote :: _ =>
        if c ∈ DOUBLE_QUOTE_ESCAPABLE then some { st with buf := st.buf.push c }
        else some { st with buf := (st.buf.push '\\').push c }
    | TokenKind.singleQuote :: _ => some { st with buf := (st.buf.push '\\').push c }
    | _ => none

/-- Embeds `Parser::handle_pipe`, entry part: `args`/`redirects` are saved and
cleared; the loop over the remaining tokens continues in the caller. -/
def handle_pipe (st : PState) : PState :=
  { st with frames := Frame.pipe st.args st.redirects :: st.frames,
            args := [], redirects := [] }

/-- The lexeme scan of `Parser::handle_redirect`: optional leading `1`/`2`
picks the source stream, then a `>` is required (anything else is the
`panic!` branch), a second `>` selects Append, and the leftover characters
are returned. -/
def parse_redirect_lexeme (cs : List Char) :
    Option (OutputStream × RedirectType × List Char) :=
  let srcRest : OutputStream × List Char :=
    match cs with
    | '1' :: rest => (OutputStreamG.stdout, rest)
    | '2' :: rest => (OutputStreamG.stderr, rest)
    | rest => (OutputStreamG.stdout, rest)
  match srcRest.2 with
  | '>' :: cs2 =>
    match cs2 with
    | '>' :: cs3 => some (srcRest.1, RedirectType.append, cs3)
    | _ => some (srcRest.1, RedirectType.overwrite, cs2)
  | _ => none

/-- Embeds `Parser::handle_redirect`, entry part: scan the lexeme, append any
leftover characters to the argument buffer, and suspend into `next_string`
(a `redirect` frame) to collect the target filename. -/
def handle_redirect (lexeme : String) (st : PState) : Option PState :=
  match parse_redirect_lexeme lexeme.data with
  | none => none
  | some (src, rt, remaining) =>
      some { st with buf := st.buf ++ String.mk remaining,
                     frames := Frame.redirect src rt :: st.frames }

/-- Embeds `Parser::handle_string`: a lone `|` starts a pipe, a lexeme containing
`>` starts a redirect, anything else is appended to the buffer verbatim
(note the Rust code performs no quote check here). -/
def handle_string (lexeme : String) (st : PState) : Option PState :=
  if lexeme = "|" then some (handle_pipe st)
  else if lexeme.data.contains '>' then handle_redirect lexeme st
  else some { st with buf := st.buf ++ lexeme }

/-- Embeds `Parser::handle_whitespace`: inside quotes the run is literal text,
outside it flushes the argument buffer. -/
def handle_whitespace (lexeme : String) (st : PState) : PState :=
  if st.quotes = [] then flush_buf st else { st with buf := st.buf ++ lexeme }

/-- Embeds `Parser::match_current_token`: dispatch one token (`handle_eof` is a
flush). -/
def applyToken (t : Token) (st : PState) : Option PState :=
  match t.kind with
  | TokenKind.singleQuote => some (handle_single_quote st)
  | TokenKind.doubleQuote => handle_double_quote st
  | TokenKind.string => handle_string t.lexeme st
  | TokenKind.escapeSequence => handle_escape_sequence t.lexeme st
  | TokenKind.whitespace => some (handle_whitespace t.lexeme st)
  | TokenKind.eof => some (flush_buf st)

/-- The token loop shared by `Parser::parse`, `handle_pipe` and
`next_string` (each token of the input is processed exactly once). -/
def runTokens : List Token → PState → Option PState
  | [], st => some st
  | t :: ts, st =>
    match applyToken t st with
    | none => none
    | some st' => runTokens ts st'

/-- Unwinding at end of input: each still-open `handle_pipe` invocation
(`pipe` frame, innermost first) takes the accumulated `args`/`redirects` as
the downstream `Command`, appends `Redirect::new_pipe` to its saved
redirects and restores its saved `args`; a still-open `next_string`
(`redirect` frame) is the `panic!("unexpected EOF")`. -/
def finalize : List Frame → List String → List Redirect → Option Command
  | [], args, reds => some (Command.mk args reds)
  | Frame.pipe sa sr :: fs, args, reds =>
      finalize fs sa (sr ++ [Redirect.new_pipe (Command.mk args reds)])
  | Frame.redirect _ _ :: _, _, _ => none

/-- Embeds `Parser::parse` over an already-lexed token stream. -/
def parse (ts : List Token) : Option Command :=
  match runTokens ts initState with
  | none => none
  | some st => finalize st.frames st.args st.redirects

/-- Shorthand token constructors for statements about concrete lines. -/
def strTok (s : String) : Token := ⟨TokenKind.string, s⟩

def wsTok : Token := ⟨TokenKind.whitespace, " "⟩

def eofTok : Token := ⟨TokenKind.eof, ""⟩

def pipeTok : Token := strTok "|"

/-- Tokens of a run of plain words, each followed by one space. -/
def wordToks (ws : List String) : List Token :=
  ws.flatMap (fun w => [strTok w, wsTok])

/-- A word that the parser treats as plain text: non-empty, not the pipe
operator, and free of the redirect character. -/
abbrev goodWord (w : String) : Prop :=
  w ≠ "" ∧ w ≠ "|" ∧ w.data.contains '>' = false

/-!
Lexer.  `lexer.rs` as present in the repository recognises only single
quotes, `is_string_char` runs (`/` or alphanumeric) and whitespace runs; any
other character hits `unimplemented!("handling of ...")`.  (Its `TokenKind`
also lacks the `DoubleQuote`/`EscapeSequence` variants that `parser.rs` and
`escape_sequence_interpreter.rs` import.)  The scanner loop is embedded with
a step bound equal to the input length: `next_token` always consumes at
least one character, so the bound is never the reason a run stops.
-/

/-- Embeds `lexer.rs::is_string_char`. -/
def is_string_char (c : Char) : Bool := c = '/' || c.isAlphanum

/-- Embeds `Lexer::next_token` (the `None` results are the `unimplemented!` panic;
the `[]` case is unreachable because the loop checks `is_eof` first). -/
def next_token : List Char → Option (Token × List Char)
  | [] => none
  | c :: cs =>
    if c = '\'' then some (⟨TokenKind.singleQuote, "'"⟩, cs)
    else if is_string_char c then
      some (⟨TokenKind.string, String.mk (c :: cs.takeWhile is_string_char)⟩,
            cs.dropWhile is_string_char)
    else if c.isWhitespace then
      some (⟨TokenKind.whitespace, String.mk (c :: cs.takeWhile (fun d => d.isWhitespace))⟩,
            cs.dropWhile (fun d => d.isWhitespace))
    else none

/-- The `Lexer::lex` loop over a given single-token scanner, bounded by the
number of remaining scanner calls (each call consumes at least one
character, so `cs.length` steps always suffice). -/
def lex_loop (next : List Char → Option (Token × List Char)) :
    Nat → List Char → Option (List Token)
  | _, [] => some [⟨TokenKind.eof, ""⟩]
  | 0, _ :: _ => none
  | fuel + 1, c :: cs =>
    match next (c :: cs) with
    | none => none
    | some (t, rest) =>
      match lex_loop next fuel rest with
      | none => none
      | some ts => some (t :: ts)

/-- Embeds `Lexer::lex` for the scanner in `lexer.rs`. -/
def lex_src (cs : List Char) : Option (List Token) :=
  lex_loop next_token cs.length cs

/-- Modelled from the spec: the character class of §4.B for `String` tokens
(the variant of `is_string_char` that the stale `lexer.rs` lacks): any
character that is not a quote, `$`, backslash or whitespace. -/
def spec_string_char (c : Char) : Bool :=
  !(c = '\'' || c = '"' || c = '$' || c = '\\' || c.isWhitespace)

/-- Modelled from the spec: the single-token scanner of §4.B, covering the
`DoubleQuote` and `EscapeSequence` token kinds that `parser.rs` consumes but
the `lexer.rs` present under `src/` does not produce.  `$` and a trailing
backslash are undefined inputs (§9). -/
def spec_next_token : List Char → Option (Token × List Char)
  | [] => none
  | c :: cs =>
    if c = '\'' then some (⟨TokenKind.singleQuote, "'"⟩, cs)
    else if c = '"' then some (⟨TokenKind.doubleQuote, "\""⟩, cs)
    else if c = '\\' then
      match cs with
      | [] => none
      | d :: rest => some (⟨TokenKind.escapeSequence, String.mk ['\\', d]⟩, rest)
    else if c.isWhitespace then
      some (⟨TokenKind.whitespace, String.mk (c :: cs.takeWhile (fun d => d.isWhitespace))⟩,
            cs.dropWhile (fun d => d.isWhitespace))
    else if c = '$' then none
    else
      some (⟨TokenKind.string, String.mk (c :: cs.takeWhile spec_string_char)⟩,
            cs.dropWhile spec_string_char)

/-- Modelled from the spec: `Lexer::lex` over the §4.B scanner. -/
def lex_spec (cs : List Char) : Option (List Token) :=
  lex_loop spec_next_token cs.length cs

/-!
Path index, `bin_path.rs`.  Filesystem metadata is abstracted as a function
from paths to results; the environment variable as an `Option String`.
-/

/-- Result of one `fs::metadata` query. -/
inductive MetaResult where
  | found (mode : Nat)
  | notFound
  | otherError
deriving DecidableEq, Repr

/-- Embeds `bin_path.rs::has_execute_permission`: `mode & 0o001 != 0`. -/
def has_execute_permission (mode : Nat) : Bool := mode &&& 1 != 0

/-- Rust `str::split(':')` (on character lists). -/
def split_colon (cs : List Char) : List (List Char) :=
  cs.foldr
    (fun c acc =>
      if c = ':' then [] :: acc else (c :: acc.headD []) :: acc.tail)
    [[]]

/-- Embeds `Path::new(dir).join(bin)` for the simple relative-name case used here. -/
def join_path (dir bin : String) : String := dir ++ "/" ++ bin

/-- Embeds `BinPath::load_path`: `env::var("PATH").unwrap()` (panic when the
variable is unset), split on `:`. -/
def load_path (pathVar : Option String) : Option (List String) :=
  match pathVar with
  | none => none
  | some s => some ((split_colon s.data).map String.mk)

/-- The directory loop of `BinPath::lookup`: skip `NotFound`, propagate any
other metadata error through `?`, return the first join with the
world-execute bit set. -/
def lookup_go (meta : String → MetaResult) (bin : String) :
    List String → Except Unit (Option String)
  | [] => Except.ok none
  | d :: ds =>
    match meta (join_path d bin) with
    | MetaResult.notFound => lookup_go meta bin ds
    | MetaResult.otherError => Except.error ()
    | MetaResult.found mode =>
      if has_execute_permission mode then Except.ok (some (join_path d bin))
      else lookup_go meta bin ds

/-- Embeds `BinPath::lookup` (outer `none` is the `load_path` unwrap panic). -/
def lookup (pathVar : Option String) (meta : String → MetaResult)
    (bin : String) : Option (Except Unit (Option String)) :=
  match load_path pathVar with
  | none => none
  | some dirs => some (lookup_go meta bin dirs)

/-!
Executable enumeration (`Bins::next`) and completion (`completion.rs`).
A directory is either unreadable (`read_dir` error) or a list of entries,
each with its own metadata result.
-/

/-- One directory entry as seen by `Bins::next`: its path and the result of
`dir_entry.metadata()`. -/
structure FsEntry where
  path : String
  meta : Except Unit Nat

/-- The item sequence produced by the `Bins` iterator: an unreadable
directory yields one error item and enumeration moves on to the next
directory; an entry with a metadata error yields one error item and
enumeration continues in the same directory; an entry with the
world-execute bit set yields its path; other entries are skipped. -/
def binsItems (dirs : List (Except Unit (List FsEntry))) :
    List (Except Unit String) :=
  dirs.flatMap fun d =>
    match d with
    | Except.error _ => [Except.error ()]
    | Except.ok entries =>
      entries.filterMap fun e =>
        match e.meta with
        | Except.error _ => some (Except.error ())
        | Except.ok mode =>
          if has_execute_permission mode then some (Except.ok e.path) else none

/-- Constant `lib.rs::BUILTIN_COMMANDS`. -/
def BUILTIN_COMMANDS : List String :=
  ["exit", "echo", "type", "pwd", "cd", "history"]

/-- Embeds `Path::file_name` for the slash-separated paths used here: the component
after the last `/` (none when empty). -/
def file_name (p : String) : Option String :=
  let base := String.mk (p.data.foldl (fun acc c => if c = '/' then [] else acc ++ [c]) [])
  if base = "" then none else some base

/-- The `for bin in bin_path.bins()` loop of `Helper::complete`:
`bin.unwrap()` panics on the first error item; an `Ok` path contributes its
basename when it starts with the word under the cursor. -/
def collect_bins (word : String) : List (Except Unit String) → Option (List String)
  | [] => some []
  | Except.error _ :: _ => none
  | Except.ok p :: rest =>
    let cand : List String :=
      match file_name p with
      | some base => if base.startsWith word then [base] else []
      | none => []
    match collect_bins word rest with
    | none => none
    | some cs => some (cand ++ cs)

/-- Insertion of a string into a sorted list (the final `candidates.sort()`
of `Helper::complete`). -/
def insert_sorted (x : String) : List String → List String
  | [] => [x]
  | y :: ys => if x ≤ y then x :: y :: ys else y :: insert_sorted x ys

def sort_strings (l : List String) : List String :=
  l.foldr insert_sorted []

/-- Embeds `Helper::complete`, candidate collection: builtin names first, then the
path enumeration (panicking on its first error item), de-duplicated in
insertion order (`IndexSet`) and sorted. -/
def complete_candidates (word : String)
    (dirs : List (Except Unit (List FsEntry))) : Option (List String) :=
  let builtinMatches := BUILTIN_COMMANDS.filter (fun b => b.startsWith word)
  match collect_bins word (binsItems dirs) with
  | none => none
  | some binMatches => some (sort_strings ((builtinMatches ++ binMatches).dedup))

/-!
Pipeline executor, `pipeline.rs::Pipeline::run`.  The run is modelled as the
trace of worker-thread events it produces.  A stage is characterised by what
`Pipeline::call` finds for its `args[0]`: a builtin, an executable on the
path, or nothing (`bail!("command not found")`).  `Command::output` — called
by the loop in `run` but absent from the `parser.rs` under `src/` — is,
following the spec (§4.E, §9 "pipe wins"), the walk of the pipe chain; the
model therefore receives the chain as the list of stages that walk visits.
Thread ids number `thread::spawn` calls in program order; `run` pushes every
handle into `self.threads` and drains/joins them at the end of the `Ok`
path.  Each `?` early return leaves `self.threads` unjoined.
-/

/-- What `Pipeline::call` resolves a stage to. -/
inductive StageCall where
  | builtin
  | external
  | notFound
deriving DecidableEq, Repr

/-- The kind of a constructed `Process` (a `notFound` stage constructs
none). -/
inductive ProcKind where
  | builtin
  | external
deriving DecidableEq, Repr

/-- Worker-thread events of one pipeline run. -/
inductive PEvent where
  | spawn (tid : Nat)
  | join (tid : Nat)
deriving DecidableEq, Repr

/-- Embeds `Pipeline::call`: builtin → `BuiltinProcess`, resolvable → 
`ExternalProcess`, otherwise the `bail!` error. -/
def pipeline_call : StageCall → Option ProcKind
  | StageCall.builtin => some ProcKind.builtin
  | StageCall.external => some ProcKind.external
  | StageCall.notFound => none

/-- Embeds `Process::wait`: a `BuiltinProcess` is a no-op, an `ExternalProcess`
spawns one child-wait worker and pushes its handle. -/
def wait_events : ProcKind → Nat → List PEvent × Nat
  | ProcKind.builtin, t => ([], t)
  | ProcKind.external, t => ([PEvent.spawn t], t + 1)

/-- The `while let` loop of `Pipeline::run`: for each next stage, `call` it
(`?` returns the error with nothing more spawned), then `wait` the previous
stage's process.  Returns the events together with the final stage's process
and the next thread id, or `none` after a failed `call`. -/
def pipeline_loop : ProcKind → List StageCall → Nat →
    List PEvent × Option (ProcKind × Nat)
  | p, [], t => ([], some (p, t))
  | p, s :: ss, t =>
    match pipeline_call s with
    | none => ([], none)
    | some q =>
      let w := wait_events p t
      let r := pipeline_loop q ss w.2
      (w.1 ++ r.1, r.2)

/-- Embeds `Pipeline::run` for a pipe chain of stages: the first `call`, the loop,
then — on the surviving path — resolving the stdout sink (`get_output?`),
spawning the stdout copy worker, resolving the stderr sink
(`get_error_output?`), spawning the stderr copy worker, `wait`ing the final
process, and joining every pushed handle in push order.  The boolean result
is `Ok`/`Err`; `outOk`/`errOk` say whether the two sink resolutions
succeed. -/
def pipeline_run (first : StageCall) (rest : List StageCall)
    (outOk errOk : Bool) : List PEvent × Bool :=
  match pipeline_call first with
  | none => ([], false)
  | some p =>
    match pipeline_loop p rest 0 with
    | (evs, none) => (evs, false)
    | (evs, some (q, t)) =>
      if outOk = false then (evs, false)
      else
        let evs1 := evs ++ [PEvent.spawn t]
        if errOk = false then (evs1, false)
        else
          let evs2 := evs1 ++ [PEvent.spawn (t + 1)]
          let w := wait_events q (t + 2)
          let evs3 := evs2 ++ w.1
          (evs3 ++ (List.range w.2).map PEvent.join, true)

/-!
Builtins of `pipeline.rs::BuiltinProcess`: `cd` and `history`.
-/

/-- The target-path resolution of `BuiltinProcess::cd_builtin`: no argument
or `~` uses `HOME` (`env::var("HOME").unwrap()`, i.e. panic when unset),
else the argument itself. -/
def cd_path (home : Option String) (args : List String) : Option String :=
  if args.length = 1 ∨ args.get? 1 = some "~" then home else args.get? 1

/-- Embeds `BuiltinProcess::cd_builtin` over abstract metadata and chdir: a
`NotFound` target prints the message and returns `Ok` with the working
directory unchanged; otherwise `env::set_current_dir(&path)?`.  The outer
`none` is the `HOME` unwrap panic.  Result: printed lines and the final
working directory. -/
def cd_builtin (home : Option String) (args : List String)
    (meta : String → MetaResult) (chdirOk : String → Bool) (cwd : String) :
    Option (Except Unit (List String × String)) :=
  match cd_path home args with
  | none => none
  | some path =>
    if meta path = MetaResult.notFound then
      some (Except.ok (["cd: " ++ path ++ ": No such file or directory\n"], cwd))
    else if chdirOk path then some (Except.ok ([], path))
    else some (Except.error ())

/-- Embeds `pipeline.rs::last_n`: the bounded `VecDeque` fold (front of the deque
at the head of the list). -/
def last_n {α : Type} (l : List α) (n : Nat) : List α :=
  l.foldl
    (fun buffer item =>
      if buffer.length = n then buffer.drop 1 ++ [item] else buffer ++ [item])
    []

/-- Rust `usize::from_str` on the strings relevant here: an optional leading
`+` followed by at least one decimal digit (overflow is not modelled). -/
def parse_usize (s : String) : Option Nat :=
  let ds := match s.data with
    | '+' :: rest => rest
    | l => l
  if ds = [] then none
  else if ds.all (fun c => c.isDigit) then
    some (ds.foldl (fun n c => n * 10 + (c.toNat - 48)) 0)
  else none

/-- One printed history line: `\t<index>  <line>\n`. -/
def fmt_history_entry : Nat × String → String
  | (num, line) => "\t" ++ toString num ++ "  " ++ line ++ "\n"

/-- The file operations `history` can delegate to the line editor. -/
inductive HistEffect where
  | load (file : String)
  | save (file : String)
  | append (file : String)
deriving DecidableEq, Repr

/-- Embeds `BuiltinProcess::history_builtin`: `-r`/`-w`/`-a` with a file argument
delegate to the editor history; a second argument otherwise must parse as a
number (`context("failed to parse number")` error if not) and prints
`last_n` of the enumerated history; no argument prints all entries. -/
def history_builtin (args : List String) (hist : List String) :
    Except Unit (List String × Option HistEffect) :=
  if 3 ≤ args.length ∧ args.get? 1 = some "-r" then
    Except.ok ([], some (HistEffect.load ((args.get? 2).getD "")))
  else if 3 ≤ args.length ∧ args.get? 1 = some "-w" then
    Except.ok ([], some (HistEffect.save ((args.get? 2).getD "")))
  else if 3 ≤ args.length ∧ args.get? 1 = some "-a" then
    Except.ok ([], some (HistEffect.append ((args.get? 2).getD "")))
  else if 2 ≤ args.length then
    match parse_usize ((args.get? 1).getD "") with
    | none => Except.error ()
    | some num =>
      Except.ok ((last_n hist.enum num).map fmt_history_entry, none)
  else
    Except.ok (hist.enum.map fmt_history_entry, none)

/-!
Helper lemmas (shared by several proofs below).
-/

/-- Lemma: `List.find?` returns the element at the first index satisfying the
predicate. -/
theorem find?_eq_of_first {α : Type} (p : α → Bool) (l : List α) (i : Nat)
    (hi : i < l.length) (hp : p (l.get ⟨i, hi⟩) = true)
    (hfirst : ∀ j (hj : j < l.length), j < i → p (l.get ⟨j, hj⟩) = false) :
    l.find? p = some (l.get ⟨i, hi⟩) := by
  induction l generalizing i with
  | nil => exact absurd hi (Nat.not_lt_zero i)
  | cons x xs ih =>
    cases i with
    | zero =>
      simp only [List.get] at hp
      simp [List.find?_cons_of_pos _ hp]
    | succ n =>
      have hx : p x = false := hfirst 0 (Nat.succ_pos _) (Nat.succ_pos n)
      rw [List.find?_cons_of_neg _ (by simp [hx])]
      simp only [List.get]
      exact ih n (Nat.lt_of_succ_lt_succ hi) hp
        (fun j hj hji => hfirst (j + 1) (Nat.succ_lt_succ hj) (Nat.succ_lt_succ hji))

/-- The directory walk of `lookup` yields `Ok(None)` when every metadata
query reports `NotFound`. -/
theorem lookup_go_all_notFound (meta : String → MetaResult) (bin : String)
    (ds : List String) (h : ∀ p, meta p = MetaResult.notFound) :
    lookup_go meta bin ds = Except.ok none := by
  induction ds with
  | nil => rfl
  | cons d ds ih => unfold lookup_go; rw [h]; exact ih

/-- Lemma: `collect_bins` succeeds whenever the enumeration contains no error
item. -/
theorem collect_bins_all_ok (word : String) (items : List (Except Unit String))
    (h : ∀ x ∈ items, ∃ p, x = Except.ok p) :
    ∃ cs, collect_bins word items = some cs := by
  induction items with
  | nil => exact ⟨[], rfl⟩
  | cons x rest ih =>
    obtain ⟨p, hp⟩ := h x (List.mem_cons_self x rest)
    obtain ⟨cs, hcs⟩ := ih (fun y hy => h y (List.mem_cons_of_mem x hy))
    subst hp
    exact ⟨(match file_name p with
            | some base => if base.startsWith word then [base] else []
            | none => []) ++ cs,
           by unfold collect_bins; rw [hcs]⟩

/-!
C6.  Escape sequences inside double quotes (`Parser::handle_escape_sequence`).
-/

/-- C6: while the double-quote state is open, resolving the escape sequence
backslash-X appends only X when X is one of `"`, `\`, `$`, backquote or
newline, and appends the two characters backslash then X for every other
X. -/
theorem escape_in_double_quotes (st : PState) (lexeme : String) (c : Char)
    (rest : List TokenKind) (hlex : lexeme.data.get? 1 = some c)
    (hq : st.quotes = TokenKind.doubleQuote :: rest) :
    handle_escape_sequence lexeme st =
      some { st with buf :=
        if c = '"' ∨ c = '\\' ∨ c = '$' ∨ c = Char.ofNat 96 ∨ c = '\n'
        then st.buf.push c
        else (st.buf.push '\\').push c } := by
  unfold handle_escape_sequence
  rw [hlex, hq]
  by_cases hd : c = '"' ∨ c = '\\' ∨ c = '$' ∨ c = Char.ofNat 96 ∨ c = '\n'
  · rcases hd with h1 | h1 | h1 | h1 | h1 <;> subst h1 <;>
      simp [DOUBLE_QUOTE_ESCAPABLE]
  · have hc : c ∉ DOUBLE_QUOTE_ESCAPABLE := by
      simpa [DOUBLE_QUOTE_ESCAPABLE] using hd
    simp [hc, hd]

/-- C6 witness: `\n` inside double quotes stays the two characters
backslash-n, starting from an empty buffer. -/
theorem escape_in_double_quotes_witness :
    handle_escape_sequence "\\n" ⟨"", [TokenKind.doubleQuote], [], [], []⟩ =
      some ⟨"\\n", [TokenKind.doubleQuote], [], [], []⟩ := by
  have h := escape_in_double_quotes ⟨"", [TokenKind.doubleQuote], [], [], []⟩
    "\\n" 'n' [] rfl rfl
  simpa using h

/-!
C7.  `cd` with a missing target (`BuiltinProcess::cd_builtin`).
-/

/-- C7: when the resolved target path reports `NotFound`, `cd` prints
exactly `cd: <path>: No such file or directory` plus newline, returns `Ok`,
and leaves the working directory unchanged. -/
theorem cd_missing_target (home : Option String) (args : List String)
    (meta : String → MetaResult) (chdirOk : String → Bool) (cwd path : String)
    (hres : cd_path home args = some path)
    (hmeta : meta path = MetaResult.notFound) :
    cd_builtin home args meta chdirOk cwd =
      some (Except.ok (["cd: " ++ path ++ ": No such file or directory\n"], cwd)) := by
  unfold cd_builtin
  rw [hres]
  simp [hmeta]

/-- C7 witness: `cd /nonesuch` on an all-`NotFound` filesystem. -/
theorem cd_missing_target_witness :
    cd_builtin (some "/home/u") ["cd", "/nonesuch"] (fun _ => MetaResult.notFound)
      (fun _ => true) "/work" =
      some (Except.ok (["cd: /nonesuch: No such file or directory\n"], "/work")) :=
  cd_missing_target (some "/home/u") ["cd", "/nonesuch"] _ _ "/work" "/nonesuch"
    (by decide) rfl

/-!
C10.  `cd` without argument (or with `~`) requires `HOME`
(`env::var("HOME").unwrap()`).
-/

/-- C10: with no path argument or argument `~`, `cd` panics when `HOME` is
unset, and uses the value of `HOME` as the target path when it is set. -/
theorem cd_home_required (args : List String) (meta : String → MetaResult)
    (chdirOk : String → Bool) (cwd : String)
    (h : args.length = 1 ∨ args.get? 1 = some "~") :
    cd_builtin none args meta chdirOk cwd = none ∧
    ∀ h0 : String, cd_path (some h0) args = some h0 := by
  constructor
  · unfold cd_builtin cd_path
    rw [if_pos h]
  · intro h0
    unfold cd_path
    rw [if_pos h]

/-- C10 witness: `cd ~` with `HOME` unset panics; with `HOME=/home/u` the
target is `/home/u`. -/
theorem cd_home_required_witness :
    cd_builtin none ["cd", "~"] (fun _ => MetaResult.notFound) (fun _ => true) "/w" = none ∧
    ∀ h0 : String, cd_path (some h0) ["cd", "~"] = some h0 :=
  cd_home_required ["cd", "~"] _ _ "/w" (Or.inr rfl)

/-!
C3.  `PATH` unset (`BinPath::load_path`, `BinPath::lookup`).
-/

/-- C3 counterexample: with the search-path variable unset, `lookup` panics
(`env::var("PATH").unwrap()`) instead of returning "not found". -/
theorem path_unset_counterexample :
    lookup none (fun _ => MetaResult.notFound) "x" = none ∧
    lookup none (fun _ => MetaResult.notFound) "x" ≠ some (Except.ok none) :=
  ⟨rfl, fun hc => Option.noConfusion hc⟩

/-- C3 amended: loading the path with the variable unset panics; with the
variable set, a lookup whose every directory probe reports `NotFound`
returns `Ok(None)` without error. -/
theorem path_unset_panics (s bin : String) (meta : String → MetaResult)
    (h : ∀ p, meta p = MetaResult.notFound) :
    lookup (some s) meta bin = some (Except.ok none) ∧ load_path none = none := by
  refine ⟨?_, rfl⟩
  exact congrArg some
    (lookup_go_all_notFound meta bin ((split_colon s.data).map String.mk) h)

/-- C3 witness: a concrete two-directory path with nothing on it. -/
theorem path_unset_panics_witness :
    lookup (some "/a:/b") (fun _ => MetaResult.notFound) "ls" = some (Except.ok none) ∧
    load_path none = none :=
  path_unset_panics "/a:/b" "ls" _ (fun _ => rfl)

/-!
C8.  Errors during path enumeration for completion (`Bins::next`,
`Helper::complete`).
-/

/-- C8 counterexample: the enumerator does keep going past an unreadable
directory (the error item is followed by later items), but the completion
call `unwrap`s the error item and panics instead of skipping it and
returning its candidate list. -/
theorem completion_error_counterexample :
    binsItems [Except.ok [⟨"/bin/ls", Except.ok 1⟩], Except.error (),
               Except.ok [⟨"/bin/cat", Except.ok 1⟩]] =
      [Except.ok "/bin/ls", Except.error (), Except.ok "/bin/cat"] ∧
    complete_candidates "" [Except.ok [⟨"/bin/ls", Except.ok 1⟩], Except.error (),
                            Except.ok [⟨"/bin/cat", Except.ok 1⟩]] = none :=
  ⟨rfl, rfl⟩

/-- C8 amended: enumeration yields per-directory and per-entry errors as
items and continues past them, but `complete` panics on the first error item;
only when the enumeration contains no error item does the completion call
return its candidate list. -/
theorem completion_all_ok_returns (word : String)
    (dirs : List (Except Unit (List FsEntry)))
    (h : ∀ x ∈ binsItems dirs, ∃ p, x = Except.ok p) :
    ∃ l, complete_candidates word dirs = some l := by
  obtain ⟨cs, hcs⟩ := collect_bins_all_ok word (binsItems dirs) h
  exact ⟨sort_strings ((BUILTIN_COMMANDS.filter (fun b => b.startsWith word) ++ cs).dedup),
         by unfold complete_candidates; rw [hcs]⟩

/-- C8 witness: an error-free enumeration produces a candidate list. -/
theorem completion_all_ok_returns_witness :
    ∃ l, complete_candidates "e" [Except.ok [⟨"/bin/echo2", Except.ok 1⟩]] = some l :=
  completion_all_ok_returns "e" [Except.ok [⟨"/bin/echo2", Except.ok 1⟩]]
    (by
      intro x hx
      rw [show binsItems [Except.ok [⟨"/bin/echo2", Except.ok 1⟩]] =
            [Except.ok "/bin/echo2"] from rfl] at hx
      exact ⟨_, List.mem_singleton.mp hx⟩)

/-!
C9 helper lemmas: the bounded-deque fold of `last_n`.
-/

/-- With bound `0` the guard `buffer.len() == n` fires only on the first
iteration, after which the buffer grows without limit. -/
theorem last_n_fold_zero {α : Type} (l buffer : List α) (hb : buffer ≠ []) :
    l.foldl
      (fun buffer item =>
        if buffer.length = 0 then buffer.drop 1 ++ [item] else buffer ++ [item])
      buffer = buffer ++ l := by
  induction l generalizing buffer with
  | nil => simp
  | cons x xs ih =>
    have hlen : buffer.length ≠ 0 := fun hc => hb (List.eq_nil_of_length_eq_zero hc)
    simp only [List.foldl_cons, if_neg hlen]
    rw [ih (buffer ++ [x]) (by simp)]
    simp

/-- Lemma: `last_n l 0 = l` (all entries, not the last zero). -/
theorem last_n_zero {α : Type} (l : List α) : last_n l 0 = l := by
  cases l with
  | nil => rfl
  | cons x xs =>
    have h1 : last_n (x :: xs) 0 =
        xs.foldl
          (fun buffer item =>
            if buffer.length = 0 then buffer.drop 1 ++ [item] else buffer ++ [item])
          [x] := rfl
    rw [h1, last_n_fold_zero xs [x] (by simp)]
    rfl

/-- With a positive bound the fold keeps exactly the last `n` elements. -/
theorem last_n_fold_pos {α : Type} (n : Nat) (hn : 0 < n) (l buffer : List α)
    (hb : buffer.length ≤ n) :
    l.foldl
      (fun buffer item =>
        if buffer.length = n then buffer.drop 1 ++ [item] else buffer ++ [item])
      buffer = (buffer ++ l).drop ((buffer ++ l).length - n) := by
  induction l generalizing buffer with
  | nil => simp [Nat.sub_eq_zero_of_le hb]
  | cons x xs ih =>
    by_cases hfull : buffer.length = n
    · simp only [List.foldl_cons, if_pos hfull]
      rw [ih (buffer.drop 1 ++ [x])
        (by
          simp only [List.length_append, List.length_drop, List.length_singleton, hfull]
          try omega)]
      have hstep : buffer.drop 1 ++ [x] ++ xs = (buffer ++ x :: xs).drop 1 := by
        rw [List.drop_append_of_le_length (by omega)]
        simp
      rw [hstep, List.drop_drop]
      have hlen1 : ((buffer ++ x :: xs).drop 1).length = buffer.length + xs.length := by
        simp [hfull]
        try omega
      have hlen2 : (buffer ++ x :: xs).length = buffer.length + (xs.length + 1) := by
        simp
      rw [hlen1, hlen2]
      congr 1
      omega
    · have hlt : buffer.length < n := Nat.lt_of_le_of_ne hb hfull
      simp only [List.foldl_cons, if_neg hfull]
      rw [ih (buffer ++ [x]) (by simp only [List.length_append, List.length_singleton]; omega)]
      simp [List.append_assoc]

/-- Lemma: for positive `n`, `last_n` is the `n`-element suffix. -/
theorem last_n_pos {α : Type} (l : List α) (n : Nat) (hn : 0 < n) :
    last_n l n = l.drop (l.length - n) := by
  unfold last_n
  rw [last_n_fold_pos n hn l [] (by simp)]
  simp

/-!
C9.  `history N` (`BuiltinProcess::history_builtin` and `last_n`).
-/

/-- C9 counterexample: `history 0` on a one-entry history prints that entry
(the deque guard degenerates at `n = 0`), not the last zero entries. -/
theorem history_zero_counterexample :
    history_builtin ["history", "0"] ["a"] =
      Except.ok (["\t0  a\n"], none) ∧
    history_builtin ["history", "0"] ["a"] ≠ Except.ok ([], none) := by
  constructor
  · rfl
  · intro hc
    rw [show history_builtin ["history", "0"] ["a"] =
          Except.ok (["\t0  a\n"], none) from rfl] at hc
    simp at hc

/-- C9 amended: `history N` with a parsed non-negative `N` prints the last
`N` history entries (all of them when the history is shorter) in original
order, each formatted `\t<index>  <line>\n` — except that `N = 0` prints all
entries instead of none. -/
theorem history_last_n (hist : List String) (s : String) (n : Nat)
    (hp : parse_usize s = some n) :
    history_builtin ["history", s] hist =
      Except.ok
        ((if n = 0 then hist.enum else hist.enum.drop (hist.length - n)).map
          fmt_history_entry, none) := by
  have h3 : ¬ 3 ≤ (["history", s] : List String).length := by simp
  unfold history_builtin
  rw [if_neg (fun h => h3 h.1), if_neg (fun h => h3 h.1), if_neg (fun h => h3 h.1),
      if_pos (by simp)]
  rw [show ((["history", s] : List String).get? 1).getD "" = s from rfl, hp]
  cases n with
  | zero =>
    show Except.ok ((last_n hist.enum 0).map fmt_history_entry, none) = _
    rw [last_n_zero]
    simp
  | succ m =>
    show Except.ok ((last_n hist.enum (m + 1)).map fmt_history_entry, none) = _
    rw [last_n_pos _ _ (Nat.succ_pos m)]
    simp [List.enum_length]

/-- C9 witness: `history 2` over a three-entry history prints the last two
entries with their original indices. -/
theorem history_last_n_witness :
    history_builtin ["history", "2"] ["a", "b", "c"] =
      Except.ok
        ((if 2 = 0 then (["a", "b", "c"] : List String).enum
          else (["a", "b", "c"] : List String).enum.drop
            ((["a", "b", "c"] : List String).length - 2)).map
          fmt_history_entry, none) :=
  history_last_n ["a", "b", "c"] "2" 2 rfl

/-!
C1.  Several file redirects with the same source stream
(`Command::get_output` / `Command::get_error_output`).
-/

/-- C1 counterexample: parsing `x 1> a 1> b` keeps the two stdout redirects
in left-to-right order, but the executor's sink resolution (`find`) uses the
*first* stdout redirect, not the later one, and the later file `b` is never
opened. -/
theorem redirect_override_counterexample :
    parse [strTok "x", wsTok, strTok "1>", wsTok, strTok "a", wsTok,
           strTok "1>", wsTok, strTok "b", eofTok] =
      some (Command.mk ["x"]
        [⟨OutputStreamG.stdout, RedirectType.overwrite, OutputStreamG.file "a"⟩,
         ⟨OutputStreamG.stdout, RedirectType.overwrite, OutputStreamG.file "b"⟩]) ∧
    (Command.mk ["x"]
        [⟨OutputStreamG.stdout, RedirectType.overwrite, OutputStreamG.file "a"⟩,
         ⟨OutputStreamG.stdout, RedirectType.overwrite, OutputStreamG.file "b"⟩]).get_output =
      some (Sink.fileSink "a" RedirectType.overwrite) ∧
    (Command.mk ["x"]
        [⟨OutputStreamG.stdout, RedirectType.overwrite, OutputStreamG.file "a"⟩,
         ⟨OutputStreamG.stdout, RedirectType.overwrite, OutputStreamG.file "b"⟩]).get_output ≠
      some (Sink.fileSink "b" RedirectType.overwrite) ∧
    Command.stdout_files_opened (Command.mk ["x"]
        [⟨OutputStreamG.stdout, RedirectType.overwrite, OutputStreamG.file "a"⟩,
         ⟨OutputStreamG.stdout, RedirectType.overwrite, OutputStreamG.file "b"⟩]) =
      ["a"] := by
  refine ⟨rfl, rfl, ?_, rfl⟩
  intro hc
  rw [show (Command.mk ["x"]
        [⟨OutputStreamG.stdout, RedirectType.overwrite, OutputStreamG.file "a"⟩,
         ⟨OutputStreamG.stdout, RedirectType.overwrite, OutputStreamG.file "b"⟩]).get_output =
      some (Sink.fileSink "a" RedirectType.overwrite) from rfl] at hc
  simp at hc

/-- C1 amended: the redirect at the *earliest* position with the requested
source stream determines the sink the executor writes through, and that
redirect's file is the only file opened during that resolution; later
redirects with the same source stream are ignored.  (`useErr = false`
resolves stdout, `useErr = true` resolves stderr.) -/
theorem redirect_first_wins (c : Command) (useErr : Bool) (i : Nat)
    (pth : String) (m : RedirectType) (hi : i < c.redirects.length)
    (hr : c.redirects.get ⟨i, hi⟩ =
      ⟨if useErr then OutputStreamG.stderr else OutputStreamG.stdout, m,
       OutputStreamG.file pth⟩)
    (hfirst : ∀ j (hj : j < c.redirects.length), j < i →
      (if useErr then is_stderr_src else is_stdout_src)
        (c.redirects.get ⟨j, hj⟩) = false) :
    (if useErr then c.get_error_output else c.get_output) =
      some (Sink.fileSink pth m) ∧
    (if useErr then c.stderr_files_opened else c.stdout_files_opened) = [pth] := by
  cases useErr
  · have hr2 : c.redirects.get ⟨i, hi⟩ =
        ⟨OutputStreamG.stdout, m, OutputStreamG.file pth⟩ := hr
    have hfirst2 : ∀ j (hj : j < c.redirects.length), j < i →
        is_stdout_src (c.redirects.get ⟨j, hj⟩) = false := hfirst
    have hfind : c.redirects.find? is_stdout_src = some (c.redirects.get ⟨i, hi⟩) :=
      find?_eq_of_first is_stdout_src c.redirects i hi (by rw [hr2]; rfl) hfirst2
    have hout : c.get_output = some (Sink.fileSink pth m) := by
      unfold Command.get_output
      rw [hfind, hr2]
      rfl
    show c.get_output = some (Sink.fileSink pth m) ∧ c.stdout_files_opened = [pth]
    refine ⟨hout, ?_⟩
    unfold Command.stdout_files_opened
    rw [hout]
  · have hr2 : c.redirects.get ⟨i, hi⟩ =
        ⟨OutputStreamG.stderr, m, OutputStreamG.file pth⟩ := hr
    have hfirst2 : ∀ j (hj : j < c.redirects.length), j < i →
        is_stderr_src (c.redirects.get ⟨j, hj⟩) = false := hfirst
    have hfind : c.redirects.find? is_stderr_src = some (c.redirects.get ⟨i, hi⟩) :=
      find?_eq_of_first is_stderr_src c.redirects i hi (by rw [hr2]; rfl) hfirst2
    have hout : c.get_error_output = some (Sink.fileSink pth m) := by
      unfold Command.get_error_output
      rw [hfind, hr2]
      rfl
    show c.get_error_output = some (Sink.fileSink pth m) ∧ c.stderr_files_opened = [pth]
    refine ⟨hout, ?_⟩
    unfold Command.stderr_files_opened
    rw [hout]

/-- C1 witness: on the parsed `x 1> a 1> b` command the earliest stdout
redirect (index 0, file `a`) decides the sink and is the only file
opened. -/
theorem redirect_first_wins_witness :
    (if false then
        (Command.mk ["x"]
          [⟨OutputStreamG.stdout, RedirectType.overwrite, OutputStreamG.file "a"⟩,
           ⟨OutputStreamG.stdout, RedirectType.overwrite, OutputStreamG.file "b"⟩]).get_error_output
      else
        (Command.mk ["x"]
          [⟨OutputStreamG.stdout, RedirectType.overwrite, OutputStreamG.file "a"⟩,
           ⟨OutputStreamG.stdout, RedirectType.overwrite, OutputStreamG.file "b"⟩]).get_output) =
      some (Sink.fileSink "a" RedirectType.overwrite) ∧
    (if false then
        (Command.mk ["x"]
          [⟨OutputStreamG.stdout, RedirectType.overwrite, OutputStreamG.file "a"⟩,
           ⟨OutputStreamG.stdout, RedirectType.overwrite, OutputStreamG.file "b"⟩]).stderr_files_opened
      else
        (Command.mk ["x"]
          [⟨OutputStreamG.stdout, RedirectType.overwrite, OutputStreamG.file "a"⟩,
           ⟨OutputStreamG.stdout, RedirectType.overwrite, OutputStreamG.file "b"⟩]).stdout_files_opened) =
      ["a"] :=
  redirect_first_wins
    (Command.mk ["x"]
      [⟨OutputStreamG.stdout, RedirectType.overwrite, OutputStreamG.file "a"⟩,
       ⟨OutputStreamG.stdout, RedirectType.overwrite, OutputStreamG.file "b"⟩])
    false 0 "a" RedirectType.overwrite (by decide)
    rfl
    (fun j hj hji => absurd hji (Nat.not_lt_zero j))

/-!
C2.  Lexer character classes.
-/

/-- C2: the scanner in the repository's `lexer.rs` panics
(`unimplemented!`) on the line `a-b` — `-` is none of quote, `$`,
backslash or whitespace, yet `is_string_char` admits only `/` and
alphanumerics, so no `String` token covers it — while the lexer the spec
describes (and `parser.rs` and the parser tests require) produces the
single greedy `String` token `a-b`. -/
theorem lexer_rejects_plain_chars :
    lex_src "a-b".data = none ∧
    lex_spec "a-b".data =
      some [⟨TokenKind.string, "a-b"⟩, ⟨TokenKind.eof, ""⟩] :=
  ⟨rfl, rfl⟩

/-!
C4.  Worker threads joined by `Pipeline::run`.
-/

/-- On a successful loop, every recorded event is a spawn with a thread id
below the final counter. -/
theorem pipeline_loop_spawn_lt (ss : List StageCall) :
    ∀ (p : ProcKind) (t : Nat) (q : ProcKind) (tf : Nat),
      (pipeline_loop p ss t).2 = some (q, tf) →
      t ≤ tf ∧ ∀ e ∈ (pipeline_loop p ss t).1,
        ∃ k, e = PEvent.spawn k ∧ k < tf := by
  induction ss with
  | nil =>
    intro p t q tf hs
    simp only [pipeline_loop, Option.some.injEq, Prod.mk.injEq] at hs
    refine ⟨Nat.le_of_eq hs.2, ?_⟩
    intro e he
    simp [pipeline_loop] at he
  | cons s ss ih =>
    intro p t q tf hs
    cases s with
    | notFound => simp [pipeline_loop, pipeline_call] at hs
    | builtin =>
      have hunf : pipeline_loop p (StageCall.builtin :: ss) t =
          ((wait_events p t).1 ++ (pipeline_loop ProcKind.builtin ss (wait_events p t).2).1,
           (pipeline_loop ProcKind.builtin ss (wait_events p t).2).2) := rfl
      rw [hunf] at hs ⊢
      obtain ⟨hle, hbound⟩ := ih ProcKind.builtin (wait_events p t).2 q tf hs
      have hwt : t ≤ (wait_events p t).2 := by cases p <;> simp [wait_events]
      refine ⟨Nat.le_trans hwt hle, ?_⟩
      intro e he
      rcases List.mem_append.mp he with hw | hr
      · cases p with
        | builtin => simp [wait_events] at hw
        | external =>
          simp only [wait_events, List.mem_singleton] at hw
          subst hw
          exact ⟨t, rfl, by simp only [wait_events] at hle; omega⟩
      · exact hbound e hr
    | external =>
      have hunf : pipeline_loop p (StageCall.external :: ss) t =
          ((wait_events p t).1 ++ (pipeline_loop ProcKind.external ss (wait_events p t).2).1,
           (pipeline_loop ProcKind.external ss (wait_events p t).2).2) := rfl
      rw [hunf] at hs ⊢
      obtain ⟨hle, hbound⟩ := ih ProcKind.external (wait_events p t).2 q tf hs
      have hwt : t ≤ (wait_events p t).2 := by cases p <;> simp [wait_events]
      refine ⟨Nat.le_trans hwt hle, ?_⟩
      intro e he
      rcases List.mem_append.mp he with hw | hr
      · cases p with
        | builtin => simp [wait_events] at hw
        | external =>
          simp only [wait_events, List.mem_singleton] at hw
          subst hw
          exact ⟨t, rfl, by simp only [wait_events] at hle; omega⟩
      · exact hbound e hr

/-- C4 counterexample: in the pipeline `ext1 | ext2 | missing`, the `call`
of the third stage fails after the child-wait worker of the first stage was
already spawned, and `run` returns the error without joining it. -/
theorem pipeline_early_return_counterexample :
    PEvent.spawn 0 ∈
      (pipeline_run StageCall.external [StageCall.external, StageCall.notFound]
        true true).1 ∧
    PEvent.join 0 ∉
      (pipeline_run StageCall.external [StageCall.external, StageCall.notFound]
        true true).1 ∧
    (pipeline_run StageCall.external [StageCall.external, StageCall.notFound]
        true true).2 = false := by
  decide

/-- C4 amended: on every run that returns `Ok`, each spawned worker thread
(stream-copy workers and per-external-stage child-wait workers) is joined
before the executor returns; a run that returns early with an error may
leave workers spawned before the failure unjoined. -/
theorem pipeline_ok_joins (first : StageCall) (rest : List StageCall)
    (outOk errOk : Bool) (tid : Nat)
    (hok : (pipeline_run first rest outOk errOk).2 = true)
    (hsp : PEvent.spawn tid ∈ (pipeline_run first rest outOk errOk).1) :
    PEvent.join tid ∈ (pipeline_run first rest outOk errOk).1 := by
  cases hfirst : pipeline_call first with
  | none =>
    have hrun : pipeline_run first rest outOk errOk = ([], false) := by
      simp [pipeline_run, hfirst]
    rw [hrun] at hok
    exact absurd hok (by simp)
  | some p =>
    rcases hloop : pipeline_loop p rest 0 with ⟨evs, ro⟩
    cases ro with
    | none =>
      have hrun : pipeline_run first rest outOk errOk = (evs, false) := by
        simp [pipeline_run, hfirst, hloop]
      rw [hrun] at hok
      exact absurd hok (by simp)
    | some qt =>
      rcases qt with ⟨q, t⟩
      cases outOk with
      | false =>
        have hrun : pipeline_run first rest false errOk = (evs, false) := by
          simp [pipeline_run, hfirst, hloop]
        rw [hrun] at hok
        exact absurd hok (by simp)
      | true =>
        cases errOk with
        | false =>
          have hrun : pipeline_run first rest true false =
              (evs ++ [PEvent.spawn t], false) := by
            simp [pipeline_run, hfirst, hloop]
          rw [hrun] at hok
          exact absurd hok (by simp)
        | true =>
          have hrun : pipeline_run first rest true true =
              ((((evs ++ [PEvent.spawn t]) ++ [PEvent.spawn (t + 1)]) ++
                  (wait_events q (t + 2)).1) ++
                (List.range (wait_events q (t + 2)).2).map PEvent.join, true) := by
            simp [pipeline_run, hfirst, hloop]
          rw [hrun] at hsp ⊢
          have hw2 : t + 2 ≤ (wait_events q (t + 2)).2 := by
            cases q <;> simp [wait_events]
          have hlt : tid < (wait_events q (t + 2)).2 := by
            rcases List.mem_append.mp hsp with h3 | hj
            · rcases List.mem_append.mp h3 with h2 | hw
              · rcases List.mem_append.mp h2 with h1 | hb
                · rcases List.mem_append.mp h1 with he | ha
                  · obtain ⟨_, hbound⟩ :=
                      pipeline_loop_spawn_lt rest p 0 q t (by rw [hloop])
                    obtain ⟨k, hk1, hk2⟩ := hbound (PEvent.spawn tid) (by rw [hloop]; exact he)
                    have : tid = k := by
                      injection hk1
                    omega
                  · have : tid = t := by
                      have := List.mem_singleton.mp ha
                      injection this
                    omega
                · have : tid = t + 1 := by
                    have := List.mem_singleton.mp hb
                    injection this
                  omega
              · cases q with
                | builtin => simp [wait_events] at hw
                | external =>
                  have : tid = t + 2 := by
                    simp only [wait_events, List.mem_singleton] at hw
                    injection hw
                  simp only [wait_events]
                  omega
            · obtain ⟨k, _, hk⟩ := List.mem_map.mp hj
              exact absurd hk (by simp)
          refine List.mem_append.mpr (Or.inr ?_)
          exact List.mem_map.mpr ⟨tid, List.mem_range.mpr hlt, rfl⟩

/-- C4 witness: a single external stage run to completion joins its three
workers. -/
theorem pipeline_ok_joins_witness :
    PEvent.join 0 ∈ (pipeline_run StageCall.external [] true true).1 :=
  pipeline_ok_joins StageCall.external [] true true 0 (by decide) (by decide)

/-!
C5 helper lemmas: runs of plain word tokens, pipe steps, composition of the
token loop.
-/

theorem str_empty_append (w : String) : "" ++ w = w := by
  cases w with
  | mk d => rfl

/-- The top parser frame is not a pending redirect (flushes go to `args`). -/
def top_not_redirect : List Frame → Prop
  | Frame.redirect _ _ :: _ => False
  | _ => True

/-- Composition of the token loop across a successful prefix. -/
theorem runTokens_append_some (xs ys : List Token) (st st2 : PState)
    (h : runTokens xs st = some st2) :
    runTokens (xs ++ ys) st = runTokens ys st2 := by
  induction xs generalizing st with
  | nil =>
    cases Option.some.inj h
    rfl
  | cons t ts ih =>
    cases happ : applyToken t st with
    | none =>
      rw [show runTokens (t :: ts) st = none from by
        simp only [runTokens]; rw [happ]] at h
      exact Option.noConfusion h
    | some st3 =>
      have h' : runTokens ts st3 = some st2 := by
        rw [show runTokens (t :: ts) st = runTokens ts st3 from by
          simp only [runTokens]; rw [happ]] at h
        exact h
      show runTokens (t :: (ts ++ ys)) st = runTokens ys st2
      rw [show runTokens (t :: (ts ++ ys)) st = runTokens (ts ++ ys) st3 from by
        simp only [runTokens]; rw [happ]]
      exact ih st3 h'

/-- Processing a run of plain words (each followed by whitespace) with an
empty buffer, no open quote and no pending redirect appends exactly those
words to `args` and changes nothing else. -/
theorem runTokens_words (ws : List String) : ∀ (st : PState),
    st.buf = "" → st.quotes = [] → (∀ w ∈ ws, goodWord w) →
    top_not_redirect st.frames →
    runTokens (wordToks ws) st = some { st with args := st.args ++ ws } := by
  induction ws with
  | nil =>
    intro st hb hq hw hf
    simp [wordToks, runTokens]
  | cons w ws ih =>
    intro st hb hq hw hf
    obtain ⟨hne, hnp, hng⟩ := hw w (List.mem_cons_self w ws)
    obtain ⟨sb, sq, sa, sr, sf⟩ := st
    replace hb : sb = "" := hb
    replace hq : sq = [] := hq
    subst hb
    subst hq
    show runTokens (strTok w :: wsTok :: wordToks ws) ⟨"", [], sa, sr, sf⟩ = _
    have h1 : runTokens (strTok w :: wsTok :: wordToks ws) ⟨"", [], sa, sr, sf⟩ =
        runTokens (wsTok :: wordToks ws) ⟨"" ++ w, [], sa, sr, sf⟩ := by
      simp only [runTokens, applyToken, strTok, handle_string]
      rw [if_neg hnp, if_neg (by simpa using hng)]
    rw [h1, str_empty_append]
    have h2 : runTokens (wsTok :: wordToks ws) ⟨w, [], sa, sr, sf⟩ =
        runTokens (wordToks ws) (flush_route w ⟨"", [], sa, sr, sf⟩) := by
      simp only [runTokens, applyToken, wsTok, handle_whitespace, flush_buf]
      rw [if_neg hne, if_pos trivial]
    rw [h2]
    have hwrest : ∀ x ∈ ws, goodWord x := fun x hx => hw x (List.mem_cons_of_mem w hx)
    cases sf with
    | nil =>
      rw [show flush_route w ⟨"", [], sa, sr, []⟩ = ⟨"", [], sa ++ [w], sr, []⟩ from rfl]
      rw [ih ⟨"", [], sa ++ [w], sr, []⟩ rfl rfl hwrest trivial]
      simp
    | cons f fs =>
      cases f with
      | pipe pa pr =>
        rw [show flush_route w ⟨"", [], sa, sr, Frame.pipe pa pr :: fs⟩ =
            ⟨"", [], sa ++ [w], sr, Frame.pipe pa pr :: fs⟩ from rfl]
        rw [ih ⟨"", [], sa ++ [w], sr, Frame.pipe pa pr :: fs⟩ rfl rfl hwrest trivial]
        simp
      | redirect rs rt => exact hf.elim

/-- A `|` token suspends the current stage (`handle_pipe`) and the loop
continues over the rest of the input. -/
theorem runTokens_pipe_cons (ts : List Token) (st : PState) :
    runTokens (pipeTok :: ts) st = runTokens ts (handle_pipe st) := by
  simp only [runTokens, applyToken, pipeTok, strTok, handle_string]
  rw [if_pos trivial]

theorem runTokens_eof (st : PState) :
    runTokens [eofTok] st = some (flush_buf st) := rfl

/-!
C5.  Right-associative pipe chains (`Parser::handle_pipe`,
`Redirect::new_pipe`).
-/

/-- C5: for every input line of the form `a | b | c` (plain words), the
parser yields the right-associative chain: the head command carries the
words of `a` and exactly one pipe redirect; its downstream carries the words
of `b` and exactly one pipe redirect; the final downstream carries the words
of `c` and no redirects; every pipe redirect is
`{from = Stdout, mode = Overwrite}` (`Redirect::new_pipe`). -/
theorem pipe_right_assoc (a b c : List String)
    (ha : ∀ w ∈ a, goodWord w) (hb : ∀ w ∈ b, goodWord w)
    (hc : ∀ w ∈ c, goodWord w) :
    parse (wordToks a ++ pipeTok :: (wordToks b ++ pipeTok ::
        (wordToks c ++ [eofTok]))) =
      some (Command.mk a [Redirect.new_pipe (Command.mk b
        [Redirect.new_pipe (Command.mk c [])])]) := by
  have h1 : runTokens (wordToks a) initState = some ⟨"", [], a, [], []⟩ := by
    have h := runTokens_words a initState rfl rfl ha trivial
    simpa [initState] using h
  have h2 : runTokens (wordToks b) ⟨"", [], [], [], [Frame.pipe a []]⟩ =
      some ⟨"", [], b, [], [Frame.pipe a []]⟩ := by
    have h := runTokens_words b ⟨"", [], [], [], [Frame.pipe a []]⟩ rfl rfl hb trivial
    simpa using h
  have h3 : runTokens (wordToks c)
      ⟨"", [], [], [], [Frame.pipe b [], Frame.pipe a []]⟩ =
      some ⟨"", [], c, [], [Frame.pipe b [], Frame.pipe a []]⟩ := by
    have h := runTokens_words c ⟨"", [], [], [], [Frame.pipe b [], Frame.pipe a []]⟩
      rfl rfl hc trivial
    simpa using h
  unfold parse
  rw [runTokens_append_some _ _ _ _ h1, runTokens_pipe_cons,
      show handle_pipe ⟨"", [], a, [], []⟩ =
        ⟨"", [], [], [], [Frame.pipe a []]⟩ from rfl,
      runTokens_append_some _ _ _ _ h2, runTokens_pipe_cons,
      show handle_pipe ⟨"", [], b, [], [Frame.pipe a []]⟩ =
        ⟨"", [], [], [], [Frame.pipe b [], Frame.pipe a []]⟩ from rfl,
      runTokens_append_some _ _ _ _ h3, runTokens_eof]
  rfl

/-- C5 witness: `cat f | head | wc`. -/
theorem pipe_right_assoc_witness :
    parse (wordToks ["cat", "f"] ++ pipeTok :: (wordToks ["head"] ++ pipeTok ::
        (wordToks ["wc"] ++ [eofTok]))) =
      some (Command.mk ["cat", "f"] [Redirect.new_pipe (Command.mk ["head"]
        [Redirect.new_pipe (Command.mk ["wc"] [])])]) :=
  pipe_right_assoc ["cat", "f"] ["head"] ["wc"] (by decide) (by decide) (by decide)
